import Mathlib

/-!
Shallow embedding of the grim-reaper node-harvesting engine
(github.com/briankopp/grim-reaper), covering:

* internal/reaper/reaper.go : GetNodesToReap, MarkNodesForDestruction
* the main package (runGrimReaper harvest loop)
* the kubernetes pod evictor : shouldEvict, daemonsetExists, evict

Modelling conventions:

* Go time.Time values are modelled as integers (Unix-style instants);
  a.Before(b) is a < b.  The single call-site value of time.Now() used to
  seed the oldest-node scan is passed in as a parameter now.
* The external kubernetes gateway is modelled by oracle functions indexed
  by call number, so a fresh answer may be given on every call.
* Go errors are modelled as Option String (none = nil error) or by
  dedicated result constructors where the code distinguishes outcomes.
* The floating-point expression int(FractionNodesToDelete * float64(numNodes))
  (reaper.go line 45) is abstracted as an integer parameter rawTarget; for a
  valid fraction in [0,1) the truncated product is a non-negative integer,
  which theorems carry as the hypothesis 0 <= rawTarget.
-/

namespace GrimReaper

/-- A node as read from the cluster: name and creation timestamp
(reaper.go uses only Name and CreationTimestamp of v1.Node). -/
structure NodeItem where
  name : String
  creationTimestamp : Int
deriving DecidableEq, Repr

/-- Result of one GetNodesToReap pass: the normal return (reap, passover),
a deal-breaker query error (reaper.go lines 80-82), or the index fault the
Go runtime raises when allNodes.Items[lowestIndex] is evaluated with
lowestIndex = -1 (reaper.go line 75). -/
inductive ReapResult where
  | ok (reap passover : List String)
  | queryError
  | indexFault
deriving DecidableEq, Repr

/-- Inner scan of reaper.go lines 57-73: walk the item list with its index,
keeping the index of the oldest node whose creation timestamp is strictly
before the running oldest value and whose name is not in the considered
list.  The running oldest value starts at now (time.Now()), the running
index at -1. -/
def scanOldestAux (considered : List String) :
    List NodeItem → Nat → Int → Int → Int
  | [], _, _, lowestIndex => lowestIndex
  | n :: rest, i, oldest, lowestIndex =>
    if n.creationTimestamp < oldest ∧ n.name ∉ considered then
      scanOldestAux considered rest (i + 1) n.creationTimestamp (i : Int)
    else
      scanOldestAux considered rest (i + 1) oldest lowestIndex

/-- The full oldest-node scan (reaper.go lines 57-73). -/
def scanOldest (items : List NodeItem) (now : Int) (considered : List String) : Int :=
  scanOldestAux considered items 0 now (-1)

/-- Outer selection loop of reaper.go lines 55-93.  fuel is the number of
remaining iterations of the for-range loop (it starts at the item count);
qIdx numbers the HasDealBreakerPods calls; oracle answers each call with
some answer or none for a gateway error.  Faithful to the source, the
considered list is passed on unchanged: line 77 reads
consideredNodes = append(consideredNodes), which appends nothing. -/
def getNodesToReapLoop (items : List NodeItem) (target : Int)
    (oracle : Nat → Option Bool) (now : Int) :
    Nat → Nat → List String → List String → List String → ReapResult
  | 0, _, _, reap, passover => .ok reap passover
  | fuel + 1, qIdx, considered, reap, passover =>
    let li := scanOldest items now considered
    if 0 ≤ li ∧ li.toNat < items.length then
      let node := items.getD li.toNat ⟨"", 0⟩
      match oracle qIdx with
      | none => .queryError
      | some dealBreak =>
        let reap1 := if dealBreak then reap else reap ++ [node.name]
        let passover1 := if dealBreak then passover ++ [node.name] else passover
        if (reap1.length : Int) = target then .ok reap1 passover1
        else getNodesToReapLoop items target oracle now fuel (qIdx + 1)
              considered reap1 passover1
    else .indexFault

/-- Target computation of reaper.go lines 44-51: rawTarget is the truncated
fraction of the node count; clamp so the cluster keeps minNodes, then cap
at maxNodesDelete.  There is no lower clamp: the result may be negative. -/
def computeTarget (numNodes rawTarget minNodes maxNodesDelete : Int) : Int :=
  let t1 := if numNodes - rawTarget < minNodes then numNodes - minNodes else rawTarget
  if t1 > maxNodesDelete then maxNodesDelete else t1

/-- GetNodesToReap (reaper.go lines 35-96) after a successful ListNodes:
compute the clamped target, then run the selection loop for one for-range
pass over the items, starting from an empty considered list. -/
def GetNodesToReap (minNodes maxNodesDelete : Int) (items : List NodeItem)
    (rawTarget : Int) (oracle : Nat → Option Bool) (now : Int) : ReapResult :=
  let target := computeTarget (items.length : Int) rawTarget minNodes maxNodesDelete
  getNodesToReapLoop items target oracle now items.length 0 [] [] []

/-- Marking loop of MarkNodesForDestruction (reaper.go lines 98-109).
gw answers the i-th MarkNodeToDrain call with none (success) or some error.
Returns the list of node names whose mark was written, paired with the
error returned by the function (none when every mark succeeded). -/
def markLoop (gw : Nat → Option String) :
    Nat → List String → List String × Option String
  | _, [] => ([], none)
  | i, n :: rest =>
    match gw i with
    | some e => ([], some e)
    | none =>
      let r := markLoop gw (i + 1) rest
      (n :: r.1, r.2)

/-- MarkNodesForDestruction (reaper.go lines 98-109): run the marking loop
from the first call. -/
def MarkNodesForDestruction (gw : Nat → Option String) (nodes : List String) :
    List String × Option String :=
  markLoop gw 0 nodes

/-- Harvest loop of runGrimReaper (main package, lines 161-168 of the file
holding runGrimReaper): for each selected node in order call Harvest; on
the first error return it immediately.  harvest answers each node with
none (success) or some error.  Returns the list of nodes actually
attempted, paired with the function result. -/
def runGrimReaperHarvests (harvest : String → Option String) :
    List String → List String × Option String
  | [] => ([], none)
  | n :: rest =>
    match harvest n with
    | some e => ([n], some e)
    | none =>
      let r := runGrimReaperHarvests harvest rest
      (n :: r.1, r.2)

/-- A pod as seen by the evictor: namespace, name, and the controller owner
reference (kind and name) when one is present (metav1.GetControllerOf). -/
structure Pod where
  nspace : String
  name : String
  owner : Option (String × String)
deriving DecidableEq, Repr

/-- Outcome of the DaemonSets Get call made by daemonsetExists: the owner
exists, the lookup reports not-found, or the lookup fails otherwise. -/
inductive DsLookup where
  | found
  | missing
  | lookupFailed
deriving DecidableEq, Repr

/-- getPodDaemonSet (pod evictor file, lines 164-171): true with the owner
name when the pod's controller reference has kind DaemonSet. -/
def getPodDaemonSet (pod : Pod) : Bool × String :=
  match pod.owner with
  | some (kind, ownerName) =>
    if kind = "DaemonSet" then (true, ownerName) else (false, "")
  | none => (false, "")

/-- daemonsetExists (pod evictor file, lines 173-184): not-found maps to
(false, no error); any other lookup error maps to (true, error); a found
owner maps to (true, no error).  The pair is (exists, errorOccurred). -/
def daemonsetExists (r : DsLookup) : Bool × Bool :=
  match r with
  | .missing => (false, false)
  | .lookupFailed => (true, true)
  | .found => (true, false)

/-- Modelled from the spec: the body of shouldEvict after the DaemonSet
branch is missing in the source (the function ends at the comment
"don't evict if statefulset" with no return statement).  Spec section 4.4
says pods not excluded by the daemon-per-node rule are eligible, so the
modelled tail returns true. -/
def shouldEvictTail (_pod : Pod) : Bool :=
  true

/-- shouldEvict (pod evictor file, lines 151-162): when the pod is owned by
a DaemonSet, look the owner up; if it exists or the lookup errors, return
false.  Otherwise fall through to the (spec-modelled) tail.  The Go
signature returns only bool: no error value can reach the caller. -/
def shouldEvict (pod : Pod) (lookup : String → String → DsLookup) : Bool :=
  let ds := getPodDaemonSet pod
  if ds.1 then
    let ex := daemonsetExists (lookup pod.nspace ds.2)
    if ex.1 || ex.2 then false
    else shouldEvictTail pod
  else shouldEvictTail pod

/-- Classification of one Evict API call (pod evictor file, lines 207-227):
the call returned nil error (anomalous confirmation-free acceptance),
not-found, too-many-requests, or any other error. -/
inductive EvictApi where
  | nilError
  | notFound
  | tooManyRequests
  | otherFailure
deriving DecidableEq, Repr

/-- Terminal outcome of the evict retry loop. -/
inductive EvictOutcome where
  | cancelled
  | evicted
  | indeterminate
  | hardFailure
deriving DecidableEq, Repr

/-- Backoff slept after a too-many-requests response:
time.Sleep(5 * time.Second) (pod evictor file, line 227). -/
def evictBackoffSeconds : Nat := 5

/-- Retry loop of evict (pod evictor file, lines 193-229).  abortAt says
whether the abort channel is closed when iteration i checks it at the top
of the loop; api gives the i-th Evict call's classification.  The loop
may run forever under sustained throttling, so it takes fuel and returns
none while still running; a terminal outcome is paired with the total
seconds slept in backoff.  Branch order follows the source: abort check,
then nil error, then not-found, then non-429 failure, else sleep 5s and
retry. -/
def evictLoop (abortAt : Nat → Bool) (api : Nat → EvictApi) :
    Nat → Nat → Nat → Option (EvictOutcome × Nat)
  | 0, _, _ => none
  | fuel + 1, i, slept =>
    if abortAt i then some (.cancelled, slept)
    else
      match api i with
      | .nilError => some (.indeterminate, slept)
      | .notFound => some (.evicted, slept)
      | .otherFailure => some (.hardFailure, slept)
      | .tooManyRequests =>
        evictLoop abortAt api fuel (i + 1) (slept + evictBackoffSeconds)

/-- evict (pod evictor file, lines 186-231): run the retry loop from the
first call with no time yet slept. -/
def evict (abortAt : Nat → Bool) (api : Nat → EvictApi) (fuel : Nat) :
    Option (EvictOutcome × Nat) :=
  evictLoop abortAt api fuel 0 0

/-- C1: the claim states that selection considers each node at most once and
never appends a node name twice to reap or passover.  The code violates
this: reaper.go line 77 reads consideredNodes = append(consideredNodes),
which appends nothing, so the considered set stays empty and the same
oldest node is re-selected every iteration.  Failing input: two nodes A
(timestamp 1) and B (timestamp 2), clamped target 1 (e.g. minNodes 1,
maxNodesDelete 2, fraction 0.5 so rawTarget 1), every deal-breaker query
answering true: the pass returns passover = [A, A] - the name A is appended
twice and B is never considered. -/
theorem GetNodesToReap_repeats_oldest_node :
    GetNodesToReap 1 2 [⟨"A", 1⟩, ⟨"B", 2⟩] 1 (fun _ => some true) 10 =
      ReapResult.ok [] ["A", "A"] := by
  decide

/-- C2: the claim states that a clamped target of at most 0 makes
GetNodesToReap return empty results immediately with no deal-breaker
queries.  The code has no such early return (reaper.go lines 44-55 go
straight into the selection loop), so with 3 nodes, minNodes 3,
maxNodesDelete 2 and fraction 0 (rawTarget 0, clamped target 0) it queries
the gateway and, with every query answering false, returns
reap = [A, A, A]: non-empty, and dependent on per-node query answers. -/
theorem GetNodesToReap_reaps_with_zero_target :
    GetNodesToReap 3 2 [⟨"A", 1⟩, ⟨"B", 2⟩, ⟨"C", 3⟩] 0 (fun _ => some false) 10 =
      ReapResult.ok ["A", "A", "A"] [] := by
  decide

/-- C8: the claim states reap and passover are always disjoint.  Because
the considered set never grows (reaper.go line 77), the same node can be
queried twice with different deal-breaker answers and land in both lists.
Failing input: nodes A (timestamp 1) and B (timestamp 2), clamped target 1,
first query true and second query false: the pass returns
reap = [A] and passover = [A], so A is in both. -/
theorem GetNodesToReap_overlap_reap_passover :
    GetNodesToReap 1 2 [⟨"A", 1⟩, ⟨"B", 2⟩] 1 (fun i => some (i = 0)) 10 =
      ReapResult.ok ["A"] ["A"] ∧
    "A" ∈ ["A"] ∧ "A" ∈ ["A"] := by
  decide

/-- C3 counterexample: with valid settings (minNodes = 3 > 0, fraction 0 so
rawTarget 0) and a single node, the clamp numNodes - minNodes makes the
computed target -2, refuting 0 <= target. -/
theorem computeTarget_negative_below_minNodes :
    computeTarget 1 0 3 2 < 0 := by
  decide

/-- C3 amended: when additionally the cluster has at least minNodes nodes
and maxNodesDelete is non-negative, the computed target t satisfies
0 <= t <= maxNodesDelete and numNodes - t >= minNodes.  The hypothesis
0 <= rawTarget encodes fraction >= 0. -/
theorem computeTarget_bounds (numNodes rawTarget minNodes maxNodesDelete : Int)
    (hraw : 0 ≤ rawTarget) (hmin : minNodes ≤ numNodes) (hmax : 0 ≤ maxNodesDelete) :
    0 ≤ computeTarget numNodes rawTarget minNodes maxNodesDelete ∧
    computeTarget numNodes rawTarget minNodes maxNodesDelete ≤ maxNodesDelete ∧
    minNodes ≤ numNodes - computeTarget numNodes rawTarget minNodes maxNodesDelete := by
  simp only [computeTarget]
  split_ifs <;> omega

/-- Witness for C3's amended theorem at spec scenario A (20 nodes,
rawTarget 2, minNodes 18, maxNodesDelete 5). -/
theorem computeTarget_bounds_witness :
    0 ≤ computeTarget 20 2 18 5 ∧ computeTarget 20 2 18 5 ≤ 5 ∧
    18 ≤ 20 - computeTarget 20 2 18 5 :=
  computeTarget_bounds 20 2 18 5 (by decide) (by decide) (by decide)

/-- C4 counterexample: the claim states a per-node harvest failure does not
abort the run and subsequent selected nodes are still attempted.  In the
code, runGrimReaper returns the error as soon as one Harvest call fails.
With selected nodes [A, B] and Harvest failing on A, only A is attempted
and B is never attempted. -/
theorem runGrimReaperHarvests_stops_after_failure :
    runGrimReaperHarvests (fun n => if n = "A" then some "boom" else none)
        ["A", "B"] = (["A"], some "boom") ∧
    "B" ∉ (runGrimReaperHarvests (fun n => if n = "A" then some "boom" else none)
        ["A", "B"]).1 := by
  decide

/-- C4 amended: a harvest failure aborts the whole run.  When every node
before x harvests cleanly and x fails with error e, runGrimReaper attempts
exactly the nodes up to and including x, and returns e; the nodes after x
are not attempted. -/
theorem runGrimReaperHarvests_prefix_abort (harvest : String → Option String)
    (pre : List String) (x : String) (suf : List String) (e : String)
    (hpre : ∀ n ∈ pre, harvest n = none) (hx : harvest x = some e) :
    runGrimReaperHarvests harvest (pre ++ x :: suf) = (pre ++ [x], some e) := by
  induction pre with
  | nil => simp [runGrimReaperHarvests, hx]
  | cons a rest ih =>
    have ha : harvest a = none := hpre a (by simp)
    have hrest : ∀ n ∈ rest, harvest n = none := fun n hn => hpre n (by simp [hn])
    simp [runGrimReaperHarvests, ha, ih hrest]

/-- Witness for C4's amended theorem: nodes [A, B, C] with B failing. -/
theorem runGrimReaperHarvests_prefix_abort_witness :
    runGrimReaperHarvests (fun n => if n = "B" then some "bad" else none)
        (["A"] ++ "B" :: ["C"]) = (["A"] ++ ["B"], some "bad") :=
  runGrimReaperHarvests_prefix_abort
    (fun n => if n = "B" then some "bad" else none)
    ["A"] "B" ["C"] "bad" (by decide) (by decide)

/-- C5 counterexample: the claim states that on an owner-lookup error the
guard both refuses eviction and surfaces the lookup error to its caller.
shouldEvict returns only a bool (its caller listPodsToEvict branches on
that bool and can receive no error), and on a lookup error it returns the
same value, false, as when the owner exists - the error case is
observationally identical to the owner-exists case, so no error is
surfaced and the pod is silently excluded. -/
theorem shouldEvict_error_indistinguishable :
    shouldEvict ⟨"ns", "p", some ("DaemonSet", "ds")⟩
        (fun _ _ => DsLookup.lookupFailed) = false ∧
    shouldEvict ⟨"ns", "p", some ("DaemonSet", "ds")⟩
        (fun _ _ => DsLookup.found) = false := by
  decide

/-- C5 amended: for a pod owned by a DaemonSet, shouldEvict returns false
while the owner exists, returns true once the owner lookup reports
not-found (tail behaviour modelled from the spec, since the source body is
truncated after the DaemonSet branch), and on any other lookup error it
returns false, refusing eviction without surfacing an error. -/
theorem shouldEvict_daemonset_cases (pod : Pod) (ds : String)
    (howner : pod.owner = some ("DaemonSet", ds)) :
    shouldEvict pod (fun _ _ => DsLookup.found) = false ∧
    shouldEvict pod (fun _ _ => DsLookup.missing) = true ∧
    shouldEvict pod (fun _ _ => DsLookup.lookupFailed) = false := by
  simp [shouldEvict, getPodDaemonSet, howner, daemonsetExists, shouldEvictTail]

/-- Witness for C5's amended theorem at a concrete DaemonSet-owned pod. -/
theorem shouldEvict_daemonset_cases_witness :
    shouldEvict ⟨"kube-system", "proxy-1", some ("DaemonSet", "proxy")⟩
        (fun _ _ => DsLookup.found) = false ∧
    shouldEvict ⟨"kube-system", "proxy-1", some ("DaemonSet", "proxy")⟩
        (fun _ _ => DsLookup.missing) = true ∧
    shouldEvict ⟨"kube-system", "proxy-1", some ("DaemonSet", "proxy")⟩
        (fun _ _ => DsLookup.lookupFailed) = false :=
  shouldEvict_daemonset_cases ⟨"kube-system", "proxy-1", some ("DaemonSet", "proxy")⟩
    "proxy" rfl

/-- Helper: a run of k throttled, non-aborted calls advances the evict loop
k calls and accumulates k backoff sleeps. -/
theorem evictLoop_throttle_prefix (abortAt : Nat → Bool) (api : Nat → EvictApi) :
    ∀ (k fuel i slept : Nat),
    (∀ j, j < k → api (i + j) = EvictApi.tooManyRequests ∧ abortAt (i + j) = false) →
    evictLoop abortAt api (k + fuel) i slept =
      evictLoop abortAt api fuel (i + k) (slept + evictBackoffSeconds * k) := by
  intro k
  induction k with
  | zero => intro fuel i slept _; simp
  | succ m ih =>
    intro fuel i slept h
    have h0 := h 0 (Nat.succ_pos m)
    have habort : abortAt i = false := by simpa using h0.2
    have happ : api i = EvictApi.tooManyRequests := by simpa using h0.1
    have hstep : m + 1 + fuel = (m + fuel) + 1 := by omega
    rw [hstep]
    rw [evictLoop]
    simp only [habort, happ, Bool.false_eq_true, if_false]
    have hshift : ∀ j, j < m →
        api (i + 1 + j) = EvictApi.tooManyRequests ∧ abortAt (i + 1 + j) = false := by
      intro j hj
      have := h (j + 1) (by omega)
      constructor
      · have e : i + (j + 1) = i + 1 + j := by omega
        rw [e] at this; exact this.1
      · have e : i + (j + 1) = i + 1 + j := by omega
        rw [e] at this; exact this.2
    rw [ih fuel (i + 1) (slept + evictBackoffSeconds) hshift]
    have e1 : i + 1 + m = i + (m + 1) := by omega
    have e2 : slept + evictBackoffSeconds + evictBackoffSeconds * m =
        slept + evictBackoffSeconds * (m + 1) := by ring
    rw [e1, e2]

/-- Helper: under sustained throttling with no abort, the evict loop never
terminates (it retries indefinitely, whatever the fuel). -/
theorem evictLoop_throttle_forever (abortAt : Nat → Bool) (api : Nat → EvictApi)
    (h : ∀ j, api j = EvictApi.tooManyRequests ∧ abortAt j = false) :
    ∀ (fuel i slept : Nat), evictLoop abortAt api fuel i slept = none := by
  intro fuel
  induction fuel with
  | zero => intro i slept; rfl
  | succ m ih =>
    intro i slept
    rw [evictLoop]
    simp only [(h i).1, (h i).2, Bool.false_eq_true, if_false]
    exact ih (i + 1) (slept + evictBackoffSeconds)

/-- C6: classification of gateway responses by evict after any run of k
throttled calls (each followed by the fixed 5-second backoff): a not-found
response yields success, any other error is a hard failure returned
immediately, a nil response with no error yields the indeterminate
failure-to-confirm outcome, which is distinct from both the hard-failure
and the success outcomes; under sustained throttling with no abort the
loop retries indefinitely, and a raised abort signal ends the loop with
the cancelled outcome. -/
theorem evict_classification (api : Nat → EvictApi) (abortAt : Nat → Bool) (k : Nat) :
    ((∀ j, j < k → api j = EvictApi.tooManyRequests ∧ abortAt j = false) →
      abortAt k = false →
      ((api k = EvictApi.notFound → ∀ m, evict abortAt api (k + 1 + m) =
          some (EvictOutcome.evicted, evictBackoffSeconds * k)) ∧
       (api k = EvictApi.otherFailure → ∀ m, evict abortAt api (k + 1 + m) =
          some (EvictOutcome.hardFailure, evictBackoffSeconds * k)) ∧
       (api k = EvictApi.nilError → ∀ m, evict abortAt api (k + 1 + m) =
          some (EvictOutcome.indeterminate, evictBackoffSeconds * k)))) ∧
    (EvictOutcome.indeterminate ≠ EvictOutcome.hardFailure ∧
     EvictOutcome.indeterminate ≠ EvictOutcome.evicted) ∧
    ((∀ j, api j = EvictApi.tooManyRequests ∧ abortAt j = false) →
      ∀ fuel, evict abortAt api fuel = none) ∧
    ((∀ j, j < k → api j = EvictApi.tooManyRequests ∧ abortAt j = false) →
      abortAt k = true →
      ∀ m, evict abortAt api (k + 1 + m) = some (EvictOutcome.cancelled,
        evictBackoffSeconds * k)) := by
  refine ⟨?_, ⟨by decide, by decide⟩, ?_, ?_⟩
  · intro hpre habort
    have base : ∀ m, evict abortAt api (k + 1 + m) =
        evictLoop abortAt api (1 + m) k (evictBackoffSeconds * k) := by
      intro m
      unfold evict
      have e : k + 1 + m = k + (1 + m) := by omega
      rw [e, evictLoop_throttle_prefix abortAt api k (1 + m) 0 0 (by simpa using hpre)]
      simp
    refine ⟨?_, ?_, ?_⟩ <;> intro hk m <;> rw [base m] <;>
      · have e : 1 + m = m + 1 := by omega
        rw [e, evictLoop]
        simp [habort, hk]
  · intro h fuel
    exact evictLoop_throttle_forever abortAt api h fuel 0 0
  · intro hpre habort m
    unfold evict
    have e : k + 1 + m = k + (1 + m) := by omega
    rw [e, evictLoop_throttle_prefix abortAt api k (1 + m) 0 0 (by simpa using hpre)]
    have e2 : 1 + m = m + 1 := by omega
    rw [e2, evictLoop]
    simp [habort]

/-- Witness for C6: one throttled call then a not-found response, never
aborted, terminates with the evicted outcome after one 5-second backoff. -/
theorem evict_classification_witness :
    evict (fun _ => false)
        (fun j => if j = 0 then EvictApi.tooManyRequests else EvictApi.notFound) 2 =
      some (EvictOutcome.evicted, 5) := by
  have h := (evict_classification
      (fun j => if j = 0 then EvictApi.tooManyRequests else EvictApi.notFound)
      (fun _ => false) 1).1
      (by intro j hj
          have : j = 0 := by omega
          subst this
          exact ⟨rfl, rfl⟩)
      rfl
  exact h.1 rfl 0

/-- Helper: once the scan holds a non-negative index it never returns to -1. -/
theorem scanOldestAux_nonneg_of_nonneg (considered : List String) :
    ∀ (rest : List NodeItem) (i : Nat) (oldest li : Int), 0 ≤ li →
    0 ≤ scanOldestAux considered rest i oldest li := by
  intro rest
  induction rest with
  | nil => intro i oldest li h; simpa [scanOldestAux] using h
  | cons n t ih =>
    intro i oldest li h
    rw [scanOldestAux]
    split
    · exact ih (i + 1) _ _ (by omega)
    · exact ih (i + 1) _ _ h

/-- Helper: an unconsidered node strictly older than the running oldest
value forces the scan to end on a non-negative index. -/
theorem scanOldestAux_nonneg_of_exists (considered : List String) :
    ∀ (rest : List NodeItem) (i : Nat) (oldest li : Int),
    (∃ n ∈ rest, n.creationTimestamp < oldest ∧ n.name ∉ considered) →
    0 ≤ scanOldestAux considered rest i oldest li := by
  intro rest
  induction rest with
  | nil => intro i oldest li h; simp at h
  | cons n t ih =>
    intro i oldest li h
    rw [scanOldestAux]
    split
    · exact scanOldestAux_nonneg_of_nonneg considered t (i + 1) _ _ (by omega)
    · rename_i hcond
      obtain ⟨w, hw, hlt, hnc⟩ := h
      rcases List.mem_cons.mp hw with hw | hw
      · subst hw; exact absurd ⟨hlt, hnc⟩ hcond
      · exact ih (i + 1) oldest li ⟨w, hw, hlt, hnc⟩

/-- Helper: the scan's result stays below any bound that dominates the
start index plus the number of remaining items. -/
theorem scanOldestAux_lt (considered : List String) :
    ∀ (rest : List NodeItem) (i : Nat) (oldest li b : Int), li < b →
    (i : Int) + rest.length ≤ b →
    scanOldestAux considered rest i oldest li < b := by
  intro rest
  induction rest with
  | nil => intro i oldest li b h _; simpa [scanOldestAux] using h
  | cons n t ih =>
    intro i oldest li b h hb
    simp only [List.length_cons] at hb
    rw [scanOldestAux]
    split
    · exact ih (i + 1) _ _ b (by push_cast at hb ⊢; omega) (by push_cast at hb ⊢; omega)
    · exact ih (i + 1) _ _ b h (by push_cast at hb ⊢; omega)

/-- Helper: as long as some node of the item list has a creation timestamp
strictly before now and a name outside the (never-growing) considered
list, no iteration of the selection loop reaches the index fault. -/
theorem getNodesToReapLoop_no_fault (items : List NodeItem) (target : Int)
    (oracle : Nat → Option Bool) (now : Int) :
    ∀ (fuel qIdx : Nat) (considered reap passover : List String),
    (∃ n ∈ items, n.creationTimestamp < now ∧ n.name ∉ considered) →
    getNodesToReapLoop items target oracle now fuel qIdx considered reap passover ≠
      ReapResult.indexFault := by
  intro fuel
  induction fuel with
  | zero => intro qIdx considered reap passover _; rw [getNodesToReapLoop]; simp
  | succ k ih =>
    intro qIdx considered reap passover h
    have h0 : 0 ≤ scanOldest items now considered :=
      scanOldestAux_nonneg_of_exists considered items 0 now (-1) h
    have h1 : scanOldest items now considered < (items.length : Int) :=
      scanOldestAux_lt considered items 0 now (-1) (items.length)
        (by omega) (by simp)
    rw [getNodesToReapLoop]
    simp only
    rw [if_pos ⟨h0, by omega⟩]
    cases ho : oracle qIdx with
    | none => simp
    | some db =>
      simp only
      split <;> split <;>
        first
          | exact ih (qIdx + 1) considered _ _ h
          | simp

/-- C9: whenever at least one node's creation timestamp is strictly
earlier than the instant seeding the oldest-node scan, the scan's
lowestIndex is in bounds (never -1) in every iteration, so
GetNodesToReap never evaluates allNodes.Items at index -1. -/
theorem GetNodesToReap_no_index_fault (minNodes maxNodesDelete rawTarget now : Int)
    (items : List NodeItem) (oracle : Nat → Option Bool)
    (h : ∃ n ∈ items, n.creationTimestamp < now) :
    GetNodesToReap minNodes maxNodesDelete items rawTarget oracle now ≠
      ReapResult.indexFault := by
  obtain ⟨n, hn, hlt⟩ := h
  exact getNodesToReapLoop_no_fault items _ oracle now items.length 0 [] [] []
    ⟨n, hn, hlt, by simp⟩

/-- Witness for C9 at a single node created before the scan instant. -/
theorem GetNodesToReap_no_index_fault_witness :
    GetNodesToReap 3 2 [⟨"A", 1⟩] 0 (fun _ => some false) 10 ≠
      ReapResult.indexFault :=
  GetNodesToReap_no_index_fault 3 2 0 10 [⟨"A", 1⟩] (fun _ => some false)
    ⟨⟨"A", 1⟩, by simp, by decide⟩

/-- Helper: when every marking call succeeds, the loop marks every node in
order and returns no error. -/
theorem markLoop_all_none (gw : Nat → Option String) :
    ∀ (nodes : List String) (i : Nat),
    (∀ j, j < nodes.length → gw (i + j) = none) →
    markLoop gw i nodes = (nodes, none) := by
  intro nodes
  induction nodes with
  | nil => intro i _; rfl
  | cons n rest ih =>
    intro i h
    have h0 : gw i = none := by simpa using h 0 (by simp)
    have hrest : ∀ j, j < rest.length → gw (i + 1 + j) = none := by
      intro j hj
      have hh := h (j + 1) (by simp; omega)
      have e : i + (j + 1) = i + 1 + j := by omega
      rw [e] at hh
      exact hh
    simp [markLoop, h0, ih (i + 1) hrest]

/-- Helper: the first failing call stops the loop; exactly the nodes before
the failing one are marked and its error is returned. -/
theorem markLoop_first_err (gw : Nat → Option String) :
    ∀ (nodes : List String) (i k : Nat) (e : String), k < nodes.length →
    (∀ j, j < k → gw (i + j) = none) → gw (i + k) = some e →
    markLoop gw i nodes = (nodes.take k, some e) := by
  intro nodes
  induction nodes with
  | nil => intro i k e hk _ _; simp at hk
  | cons n rest ih =>
    intro i k e hk hpre herr
    cases k with
    | zero =>
      have h0 : gw i = some e := by simpa using herr
      simp [markLoop, h0]
    | succ m =>
      have h0 : gw i = none := by simpa using hpre 0 (Nat.succ_pos m)
      have hpre1 : ∀ j, j < m → gw (i + 1 + j) = none := by
        intro j hj
        have hh := hpre (j + 1) (by omega)
        have eq1 : i + (j + 1) = i + 1 + j := by omega
        rw [eq1] at hh
        exact hh
      have herr1 : gw (i + 1 + m) = some e := by
        have eq1 : i + (m + 1) = i + 1 + m := by omega
        rw [eq1] at herr
        exact herr
      have hm : m < rest.length := by simpa using Nat.lt_of_succ_lt_succ hk
      simp [markLoop, h0, ih (i + 1) m e hm hpre1 herr1]

/-- Helper: the loop's error component is nil exactly when every marking
call for the list succeeds. -/
theorem markLoop_none_iff (gw : Nat → Option String) :
    ∀ (nodes : List String) (i : Nat),
    (markLoop gw i nodes).2 = none ↔ ∀ j, j < nodes.length → gw (i + j) = none := by
  intro nodes
  induction nodes with
  | nil => intro i; simp [markLoop]
  | cons n rest ih =>
    intro i
    cases hgw : gw i with
    | some e =>
      simp only [markLoop, hgw]
      constructor
      · intro hc; simp at hc
      · intro hall
        have := hall 0 (by simp)
        simp [hgw] at this
    | none =>
      simp only [markLoop, hgw]
      constructor
      · intro hc j hj
        cases j with
        | zero => simpa using hgw
        | succ m =>
          have hm : m < rest.length := by simpa using Nat.lt_of_succ_lt_succ hj
          have := (ih (i + 1)).mp (by simpa using hc) m hm
          have eq1 : i + 1 + m = i + (m + 1) := by omega
          rw [eq1] at this
          exact this
      · intro hall
        have : ∀ j, j < rest.length → gw (i + 1 + j) = none := by
          intro j hj
          have hh := hall (j + 1) (by simp; omega)
          have eq1 : i + (j + 1) = i + 1 + j := by omega
          rw [eq1] at hh
          exact hh
        simpa using (ih (i + 1)).mpr this

/-- C10: MarkNodesForDestruction processes the node names strictly in input
order; it returns nil exactly when every marking call succeeded, in which
case every node is marked; and on the first failing call it returns that
error with exactly the earlier nodes marked (a prefix, not undone). -/
theorem MarkNodesForDestruction_spec (gw : Nat → Option String) (nodes : List String) :
    ((MarkNodesForDestruction gw nodes).2 = none ↔
      ∀ j, j < nodes.length → gw j = none) ∧
    ((∀ j, j < nodes.length → gw j = none) →
      MarkNodesForDestruction gw nodes = (nodes, none)) ∧
    (∀ k e, k < nodes.length → (∀ j, j < k → gw j = none) → gw k = some e →
      MarkNodesForDestruction gw nodes = (nodes.take k, some e)) := by
  refine ⟨?_, ?_, ?_⟩
  · simpa using markLoop_none_iff gw nodes 0
  · intro hall
    exact markLoop_all_none gw nodes 0 (by simpa using hall)
  · intro k e hk hpre herr
    exact markLoop_first_err gw nodes 0 k e hk (by simpa using hpre) (by simpa using herr)

/-- Witness for C10: three nodes with the second marking call failing mark
only the first node and return the error. -/
theorem MarkNodesForDestruction_spec_witness :
    MarkNodesForDestruction (fun i => if i = 1 then some "err" else none)
        ["a", "b", "c"] = (["a"], some "err") := by
  have h := (MarkNodesForDestruction_spec
      (fun i => if i = 1 then some "err" else none) ["a", "b", "c"]).2.2 1 "err"
      (by decide)
      (by intro j hj
          have : j = 0 := by omega
          subst this
          rfl)
      rfl
  simpa using h

end GrimReaper

